import Mathlib

set_option autoImplicit false

/-! Shallow embedding of `src/chemicaltoolbox/sucos/sucos_max.py`.

Molecules are abstract: a property table (a map from property names to
optional values, as written by RDKit SetProp / SetDoubleProp / SetIntProp)
together with a flag recording whether feature generation
(`sucos.getRawFeatures`, an external call that may raise) succeeds on the
molecule.  The SuCOS scorer `sucos.get_SucosScore` is an external black box
and is a parameter of every definition: it returns the triple
(sucos score, feature map score, protrude score), modelled as rationals.
An SD file is a list of records; a record either fails to parse (the
supplier yields `None`, modelled as `Record.bad`) or yields a molecule.
Log output (`utils.log`) is modelled as a list of structured messages;
the final "Completed N comparisons" line carries no information used by
any property and is not modelled.  Errors escaping `process` (the
`ValueError` for an invalid mode, the latent `NameError` from reading
`cluster_name` before assignment, and the `SystemExit` with which argparse
rejects a mode outside its `choices` list) are modelled as `Except` errors. -/

inductive PropVal where
  | dbl (q : ℚ)
  | int (n : ℤ)
  | str (s : String)
deriving DecidableEq

structure Mol where
  props : String → Option PropVal
  featOk : Bool

inductive Record where
  | bad
  | good (m : Mol)

inductive LogMsg where
  | warnBadMolCluster (i : ℕ) (file : String)
  | warnFeaturesCluster (i : ℕ) (file : String)
  | warnBadMolInput (i : ℕ)
  | warnFeaturesInput (i : ℕ)
  | didNotOverlay (i : ℕ)
deriving DecidableEq

inductive Err where
  | valueError (msg : String)
  | nameError
  | argparseExit
deriving DecidableEq

/-- RDKit `mol.SetProp` (also the typed variants): update one property. -/
def setProp (m : Mol) (k : String) (v : PropVal) : Mol :=
  { m with props := fun q => if q = k then some v else m.props q }

/-- `cluster_name.split(os.sep)[-1]` with `os.sep = "/"`. -/
def baseName (s : String) : String :=
  (s.splitOn "/").getLastD ""

/-- The first loop of `process`: read one cluster SD file, keeping the
molecules that parse and whose feature generation succeeds, logging a
warning for each record that is skipped.  `i` is the running record
counter (the Python variable `i` before the current record). -/
def loadClusterAux (f : String) : ℕ → List Record → List Mol × List LogMsg
  | _, [] => ([], [])
  | i, Record.bad :: rs =>
      let rest := loadClusterAux f (i + 1) rs
      (rest.1, LogMsg.warnBadMolCluster (i + 1) f :: rest.2)
  | i, Record.good m :: rs =>
      let rest := loadClusterAux f (i + 1) rs
      if m.featOk then (m :: rest.1, rest.2)
      else (rest.1, LogMsg.warnFeaturesCluster (i + 1) f :: rest.2)

/-- Reading a whole cluster file starts the record counter at 0. -/
def loadCluster (f : String) (recs : List Record) : List Mol × List LogMsg :=
  loadClusterAux f 0 recs

/-- A record survives cluster loading when it parses and features succeed. -/
def keptRec : Record → Option Mol
  | Record.bad => none
  | Record.good m => if m.featOk then some m else none

/-- The molecules of a cluster file that survive loading. -/
def clusterMols (recs : List Record) : List Mol :=
  recs.filterMap keptRec

/-- All molecules that parse in the input file (whether or not their
feature generation succeeds). -/
def inputMols (recs : List Record) : List Mol :=
  recs.filterMap fun r =>
    match r with
    | Record.bad => none
    | Record.good m => some m

/-- Insertion into the Python dict `all_clusters` (assignment keeps the
position of an existing key, otherwise appends). -/
def dictInsert (d : List (String × List Mol)) (k : String) (v : List Mol) :
    List (String × List Mol) :=
  if k ∈ d.map Prod.fst then d.map fun p => if p.1 = k then (p.1, v) else p
  else d ++ [(k, v)]

/-- The loop `for filename in clusterfilenames` filling `all_clusters`,
accumulating the dict `d` and the log `lg`.  `files` maps a file name to
the records of that SD file. -/
def buildClustersAux (files : String → List Record) :
    List (String × List Mol) → List LogMsg → List String →
    List (String × List Mol) × List LogMsg
  | d, lg, [] => (d, lg)
  | d, lg, f :: fs =>
      let c := loadCluster f (files f)
      buildClustersAux files (dictInsert d f c.1) (lg ++ c.2) fs

def buildClusters (files : String → List Record) (names : List String) :
    List (String × List Mol) × List LogMsg :=
  buildClustersAux files [] [] names

/-- The mutable state of one query molecule: the list `scores = [s0, s1, s2]`
together with the function-scope variables `cluster_name` and
`cluster_index` (which may still be unassigned, or hold a value from an
earlier molecule). -/
structure ScoreAcc where
  s0 : ℚ
  s1 : ℚ
  s2 : ℚ
  cname : Option String
  cindex : Option ℕ

/-- `scores = [0, 0, 0]` at the start of a molecule; `cluster_name` and
`cluster_index` keep whatever value they had. -/
def startAcc (st : Option String × Option ℕ) : ScoreAcc :=
  ⟨0, 0, 0, st.1, st.2⟩

/-- The body of the innermost loop of `process`: one call of
`sucos.get_SucosScore` for hit number `idx` of cluster file `cn`, followed
by the mode dispatch (strict improvement updates in mode max, running sums
in mode cum, `ValueError` otherwise). -/
def stepHit (mode : String) (score : Mol → Mol → ℚ × ℚ × ℚ) (m : Mol)
    (cn : String) (idx : ℕ) (hit : Mol) (acc : ScoreAcc) : Except Err ScoreAcc :=
  let r := score hit m
  if mode = "max" then
    if acc.s0 < r.1 then
      Except.ok ⟨r.1, r.2.1, r.2.2, some cn, some idx⟩
    else Except.ok acc
  else if mode = "cum" then
    Except.ok ⟨acc.s0 + r.1, acc.s1 + r.2.1, acc.s2 + r.2.2, acc.cname, acc.cindex⟩
  else Except.error (Err.valueError ("Invalid mode: " ++ mode))

/-- `for entry in cluster`: fold `stepHit` over the hits of one cluster
file, `idx` being the Python variable `index` before the current hit. -/
def runCluster (mode : String) (score : Mol → Mol → ℚ × ℚ × ℚ) (m : Mol)
    (cn : String) : ℕ → List Mol → ScoreAcc → Except Err ScoreAcc
  | _, [], acc => Except.ok acc
  | idx, h :: hs, acc =>
      match stepHit mode score m cn (idx + 1) h acc with
      | Except.ok acc2 => runCluster mode score m cn (idx + 1) hs acc2
      | Except.error e => Except.error e

/-- `for clusterfilename in all_clusters`: every cluster restarts its
`index` at 0. -/
def runClusters (mode : String) (score : Mol → Mol → ℚ × ℚ × ℚ) (m : Mol) :
    List (String × List Mol) → ScoreAcc → Except Err ScoreAcc
  | [], acc => Except.ok acc
  | c :: cs, acc =>
      match runCluster mode score m c.1 0 c.2 acc with
      | Except.ok acc2 => runClusters mode score m cs acc2
      | Except.error e => Except.error e

/-- The annotations written in mode max, in source order. -/
def annotateMax (m : Mol) (s fm v : ℚ) (cn : String) (ci : ℕ) : Mol :=
  setProp (setProp (setProp (setProp (setProp m
    "Max_SuCOS_Score" (PropVal.dbl s))
    "Max_SuCOS_FeatureMap_Score" (PropVal.dbl fm))
    "Max_SuCOS_Protrude_Score" (PropVal.dbl v))
    "Max_SuCOS_Cluster" (PropVal.str (baseName cn)))
    "Max_SuCOS_Index" (PropVal.int (ci : ℤ))

/-- The annotations written in the other (cum) branch, in source order. -/
def annotateCum (m : Mol) (s fm v : ℚ) : Mol :=
  setProp (setProp (setProp m
    "Cum_SuCOS_Score" (PropVal.dbl s))
    "Cum_SuCOS_FeatureMap_Score" (PropVal.dbl fm))
    "Cum_SuCOS_Protrude_Score" (PropVal.dbl v)

def maxKeys : List String :=
  ["Max_SuCOS_Score", "Max_SuCOS_FeatureMap_Score", "Max_SuCOS_Protrude_Score",
   "Max_SuCOS_Cluster", "Max_SuCOS_Index"]

def cumKeys : List String :=
  ["Cum_SuCOS_Score", "Cum_SuCOS_FeatureMap_Score", "Cum_SuCOS_Protrude_Score"]

def annotKeys (mode : String) : List String :=
  if mode = "max" then maxKeys else cumKeys

/-- The body of `for mol in suppl` for record number `n` of the input
file, with `st` the current values of `cluster_name` and `cluster_index`.
Returns the molecule written (if any), the log lines emitted, and the
values of `cluster_name` / `cluster_index` afterwards. -/
def processOne (mode : String) (score : Mol → Mol → ℚ × ℚ × ℚ)
    (cls : List (String × List Mol)) (n : ℕ) (st : Option String × Option ℕ) :
    Record → Except Err (Option Mol × List LogMsg × Option String × Option ℕ)
  | Record.bad => Except.ok (none, [LogMsg.warnBadMolInput n], st)
  | Record.good m =>
      if m.featOk then
        match runClusters mode score m cls (startAcc st) with
        | Except.error e => Except.error e
        | Except.ok acc =>
            if 0 < acc.s0 then
              if mode = "max" then
                match acc.cname, acc.cindex with
                | some cn, some ci =>
                    Except.ok (some (annotateMax m acc.s0 acc.s1 acc.s2 cn ci),
                      [], acc.cname, acc.cindex)
                | _, _ => Except.error Err.nameError
              else
                Except.ok (some (annotateCum m acc.s0 acc.s1 acc.s2),
                  [], acc.cname, acc.cindex)
            else Except.ok (none, [LogMsg.didNotOverlay n], acc.cname, acc.cindex)
      else Except.ok (none, [LogMsg.warnFeaturesInput n], st)

/-- The main loop of `process` over the input records, `n` the Python
variable `mol_num` before the current record.  Output molecules and log
lines accumulate in order; an uncaught error aborts everything. -/
def processMols (mode : String) (score : Mol → Mol → ℚ × ℚ × ℚ)
    (cls : List (String × List Mol)) :
    Option String × Option ℕ → ℕ → List Record →
    Except Err (List Mol × List LogMsg × Option String × Option ℕ)
  | st, _, [] => Except.ok ([], [], st)
  | st, n, r :: rs =>
      match processOne mode score cls (n + 1) st r with
      | Except.error e => Except.error e
      | Except.ok (o, l, st2) =>
          match processMols mode score cls st2 (n + 1) rs with
          | Except.error e => Except.error e
          | Except.ok (os, ls, st3) => Except.ok (o.toList ++ os, l ++ ls, st3)

/-- `process(inputfilename, clusterfilenames, outputfilename, mode)`:
`files` maps a file name to its records, `input` is the record list of the
input file, `names` the cluster file name list.  Returns the sequence of
molecules written to the output file and the log. -/
def process (score : Mol → Mol → ℚ × ℚ × ℚ) (files : String → List Record)
    (input : List Record) (names : List String) (mode : String) :
    Except Err (List Mol × List LogMsg) :=
  let bc := buildClusters files names
  match processMols mode score bc.1 (none, none) 0 input with
  | Except.ok (out, lg, _) => Except.ok (out, bc.2 ++ lg)
  | Except.error e => Except.error e

/-- `main()`: argparse rejects a `--mode` outside `choices=['max', 'cum']`
with a fatal `SystemExit` before `process` runs. -/
def mainRun (score : Mol → Mol → ℚ × ℚ × ℚ) (files : String → List Record)
    (input : List Record) (names : List String) (mode : String) :
    Except Err (List Mol × List LogMsg) :=
  if mode = "max" ∨ mode = "cum" then process score files input names mode
  else Except.error Err.argparseExit

/-- The (cluster file, 1-based index, hit) triples of one cluster, starting
the index after `idx`. -/
def clusterTriples (cn : String) : ℕ → List Mol → List (String × ℕ × Mol)
  | _, [] => []
  | idx, h :: hs => (cn, idx + 1, h) :: clusterTriples cn (idx + 1) hs

/-- All hit triples, in the iteration order of the scoring loops. -/
def hitTriples : List (String × List Mol) → List (String × ℕ × Mol)
  | [] => []
  | c :: cs => clusterTriples c.1 0 c.2 ++ hitTriples cs

/-! Basic facts about cluster loading. -/

theorem loadClusterAux_fst (f : String) :
    ∀ (recs : List Record) (i : ℕ), (loadClusterAux f i recs).1 = clusterMols recs
  | [], _ => rfl
  | Record.bad :: rs, i => by
      simp [loadClusterAux, clusterMols, List.filterMap_cons, keptRec,
        loadClusterAux_fst f rs (i + 1)]
  | Record.good m :: rs, i => by
      have ih := loadClusterAux_fst f rs (i + 1)
      by_cases h : m.featOk <;>
        simp [loadClusterAux, clusterMols, List.filterMap_cons, keptRec, h, ih]

theorem loadClusterAux_append (f : String) :
    ∀ (xs ys : List Record) (i : ℕ),
      loadClusterAux f i (xs ++ ys) =
        ((loadClusterAux f i xs).1 ++ (loadClusterAux f (i + xs.length) ys).1,
         (loadClusterAux f i xs).2 ++ (loadClusterAux f (i + xs.length) ys).2)
  | [], ys, i => by simp [loadClusterAux]
  | Record.bad :: xs, ys, i => by
      have h : i + 1 + xs.length = i + (xs.length + 1) := by omega
      simp [loadClusterAux, loadClusterAux_append f xs ys (i + 1), h, List.length_cons]
  | Record.good m :: xs, ys, i => by
      have h : i + 1 + xs.length = i + (xs.length + 1) := by omega
      have ih := loadClusterAux_append f xs ys (i + 1)
      by_cases hf : m.featOk <;>
        simp [loadClusterAux, ih, h, hf, List.length_cons]

theorem dictInsert_notMem (d : List (String × List Mol)) (k : String) (v : List Mol)
    (h : k ∉ d.map Prod.fst) : dictInsert d k v = d ++ [(k, v)] := by
  simp [dictInsert, h]

theorem buildClustersAux_fst (files : String → List Record) :
    ∀ (names : List String) (d : List (String × List Mol)) (lg : List LogMsg),
      names.Nodup → (∀ g ∈ names, g ∉ d.map Prod.fst) →
      (buildClustersAux files d lg names).1 =
        d ++ names.map fun g => (g, clusterMols (files g))
  | [], d, lg, _, _ => by simp [buildClustersAux]
  | f :: fs, d, lg, hnd, hdis => by
      have hf : f ∉ d.map Prod.fst := hdis f (List.mem_cons_self f fs)
      have hnd2 : fs.Nodup := (List.nodup_cons.mp hnd).2
      have hffs : f ∉ fs := (List.nodup_cons.mp hnd).1
      have hdis2 : ∀ g ∈ fs, g ∉ (d ++ [(f, (loadCluster f (files f)).1)]).map Prod.fst := by
        intro g hg
        simp only [List.map_append, List.mem_append, List.map_cons, List.map_nil,
          List.mem_singleton, not_or]
        refine ⟨hdis g (List.mem_cons_of_mem f hg), ?_⟩
        intro hgf
        exact hffs (hgf ▸ hg)
      have ih := buildClustersAux_fst files fs
        (d ++ [(f, (loadCluster f (files f)).1)]) (lg ++ (loadCluster f (files f)).2)
        hnd2 hdis2
      rw [buildClustersAux, dictInsert_notMem _ _ _ hf, ih]
      simp [loadCluster, loadClusterAux_fst, List.append_assoc]

theorem buildClusters_fst (files : String → List Record) (names : List String)
    (hnd : names.Nodup) :
    (buildClusters files names).1 = names.map fun g => (g, clusterMols (files g)) := by
  have h := buildClustersAux_fst files names [] [] hnd (by intro g hg; simp)
  simpa [buildClusters] using h

/-! Facts about hit triples. -/

theorem clusterTriples_map {α : Type} (g : Mol → α) (cn : String) :
    ∀ (hits : List Mol) (idx : ℕ),
      (clusterTriples cn idx hits).map (fun t => g t.2.2) = hits.map g
  | [], _ => rfl
  | h :: hs, idx => by
      simp [clusterTriples, clusterTriples_map g cn hs (idx + 1)]

theorem clusterTriples_mem (cn : String) :
    ∀ (hits : List Mol) (idx : ℕ) (t : String × ℕ × Mol),
      t ∈ clusterTriples cn idx hits →
      t.1 = cn ∧ ∃ j, t.2.1 = idx + j + 1 ∧ hits.get? j = some t.2.2
  | [], _, t, ht => absurd ht (List.not_mem_nil t)
  | h :: hs, idx, t, ht => by
      rcases List.mem_cons.mp ht with h1 | h2
      · subst h1
        exact ⟨rfl, 0, by simp, rfl⟩
      · obtain ⟨hcn, j, hj, hget⟩ := clusterTriples_mem cn hs (idx + 1) t h2
        exact ⟨hcn, j + 1, by omega, by simpa using hget⟩

theorem hitTriples_mem (cls : List (String × List Mol)) (t : String × ℕ × Mol)
    (ht : t ∈ hitTriples cls) :
    ∃ c ∈ cls, t ∈ clusterTriples c.1 0 c.2 := by
  induction cls with
  | nil => exact absurd ht (List.not_mem_nil t)
  | cons c cs ih =>
      rcases List.mem_append.mp ht with h1 | h2
      · exact ⟨c, List.mem_cons_self c cs, h1⟩
      · obtain ⟨c2, hc2, hm⟩ := ih h2
        exact ⟨c2, List.mem_cons_of_mem c hc2, hm⟩

/-! The invariant of the mode max scoring loop: either no hit improved on
the incoming best score, or the accumulator holds exactly the data of some
already-seen hit that strictly improved on it and is maximal among all
seen hits. -/

def MaxInv (score : Mol → Mol → ℚ × ℚ × ℚ) (m : Mol)
    (ts : List (String × ℕ × Mol)) (a b : ScoreAcc) : Prop :=
  (b = a ∧ ∀ t ∈ ts, (score t.2.2 m).1 ≤ a.s0) ∨
  (∃ t ∈ ts, b.s0 = (score t.2.2 m).1 ∧ b.s1 = (score t.2.2 m).2.1 ∧
     b.s2 = (score t.2.2 m).2.2 ∧ b.cname = some t.1 ∧ b.cindex = some t.2.1 ∧
     a.s0 < b.s0 ∧ ∀ u ∈ ts, (score u.2.2 m).1 ≤ b.s0)

theorem maxInv_trans (score : Mol → Mol → ℚ × ℚ × ℚ) (m : Mol)
    (ts1 ts2 : List (String × ℕ × Mol)) (a b c : ScoreAcc)
    (h1 : MaxInv score m ts1 a b) (h2 : MaxInv score m ts2 b c) :
    MaxInv score m (ts1 ++ ts2) a c := by
  rcases h1 with ⟨hba, hle1⟩ | ⟨t, ht, ts0, ts1f, ts2f, tcn, tci, tlt, tle⟩
  · rcases h2 with ⟨hcb, hle2⟩ | ⟨u, hu, us0, us1, us2, ucn, uci, ult, ule⟩
    · refine Or.inl ⟨hcb.trans hba, ?_⟩
      intro t ht
      rcases List.mem_append.mp ht with h | h
      · exact hle1 t h
      · exact hba ▸ hle2 t h
    · refine Or.inr ⟨u, List.mem_append_right ts1 hu, us0, us1, us2, ucn, uci, ?_, ?_⟩
      · exact hba ▸ ult
      · intro v hv
        rcases List.mem_append.mp hv with h | h
        · exact le_of_lt (lt_of_le_of_lt (hba ▸ hle1 v h) ult)
        · exact ule v h
  · rcases h2 with ⟨hcb, hle2⟩ | ⟨u, hu, us0, us1, us2, ucn, uci, ult, ule⟩
    · refine Or.inr ⟨t, List.mem_append_left ts2 ht, hcb ▸ ts0, hcb ▸ ts1f,
        hcb ▸ ts2f, hcb ▸ tcn, hcb ▸ tci, hcb ▸ tlt, ?_⟩
      intro v hv
      rcases List.mem_append.mp hv with h | h
      · exact hcb ▸ tle v h
      · exact hcb ▸ hle2 v h
    · refine Or.inr ⟨u, List.mem_append_right ts1 hu, us0, us1, us2, ucn, uci,
        lt_trans tlt ult, ?_⟩
      intro v hv
      rcases List.mem_append.mp hv with h | h
      · exact le_of_lt (lt_of_le_of_lt (tle v h) ult)
      · exact ule v h

theorem runCluster_max (score : Mol → Mol → ℚ × ℚ × ℚ) (m : Mol) (cn : String) :
    ∀ (hits : List Mol) (idx : ℕ) (acc : ScoreAcc),
      ∃ b, runCluster "max" score m cn idx hits acc = Except.ok b ∧
        MaxInv score m (clusterTriples cn idx hits) acc b
  | [], idx, acc => ⟨acc, rfl, Or.inl ⟨rfl, by simp [clusterTriples]⟩⟩
  | h :: hs, idx, acc => by
      by_cases hlt : acc.s0 < (score h m).1
      · obtain ⟨b, hb, hinv⟩ := runCluster_max score m cn hs (idx + 1)
          ⟨(score h m).1, (score h m).2.1, (score h m).2.2, some cn, some (idx + 1)⟩
        refine ⟨b, ?_, ?_⟩
        · rw [runCluster]
          have hs1 : stepHit "max" score m cn (idx + 1) h acc =
              Except.ok ⟨(score h m).1, (score h m).2.1, (score h m).2.2,
                some cn, some (idx + 1)⟩ := by
            simp [stepHit, hlt]
          rw [hs1]
          exact hb
        · have h1 : MaxInv score m [(cn, idx + 1, h)] acc
              ⟨(score h m).1, (score h m).2.1, (score h m).2.2,
                some cn, some (idx + 1)⟩ :=
            Or.inr ⟨(cn, idx + 1, h), List.mem_singleton_self _,
              rfl, rfl, rfl, rfl, rfl, hlt, by
                intro u hu
                rcases List.mem_singleton.mp hu with rfl
                exact le_refl _⟩
          have h2 := maxInv_trans score m [(cn, idx + 1, h)]
            (clusterTriples cn (idx + 1) hs) acc _ b h1 hinv
          simpa [clusterTriples] using h2
      · obtain ⟨b, hb, hinv⟩ := runCluster_max score m cn hs (idx + 1) acc
        refine ⟨b, ?_, ?_⟩
        · rw [runCluster]
          have hs1 : stepHit "max" score m cn (idx + 1) h acc = Except.ok acc := by
            simp [stepHit, hlt]
          rw [hs1]
          exact hb
        · have h1 : MaxInv score m [(cn, idx + 1, h)] acc acc :=
            Or.inl ⟨rfl, by
              intro u hu
              rcases List.mem_singleton.mp hu with rfl
              exact le_of_not_lt hlt⟩
          have h2 := maxInv_trans score m [(cn, idx + 1, h)]
            (clusterTriples cn (idx + 1) hs) acc acc b h1 hinv
          simpa [clusterTriples] using h2

theorem runClusters_max (score : Mol → Mol → ℚ × ℚ × ℚ) (m : Mol) :
    ∀ (cls : List (String × List Mol)) (acc : ScoreAcc),
      ∃ b, runClusters "max" score m cls acc = Except.ok b ∧
        MaxInv score m (hitTriples cls) acc b
  | [], acc => ⟨acc, rfl, Or.inl ⟨rfl, by simp [hitTriples]⟩⟩
  | c :: cs, acc => by
      obtain ⟨b1, hb1, hinv1⟩ := runCluster_max score m c.1 c.2 0 acc
      obtain ⟨b2, hb2, hinv2⟩ := runClusters_max score m cs b1
      refine ⟨b2, ?_, ?_⟩
      · rw [runClusters, hb1]
        exact hb2
      · exact maxInv_trans score m _ _ acc b1 b2 hinv1 hinv2

theorem maxInv_final (score : Mol → Mol → ℚ × ℚ × ℚ) (m : Mol)
    (ts : List (String × ℕ × Mol)) (a b : ScoreAcc)
    (hinv : MaxInv score m ts a b) (ha : a.s0 = 0) (hb : 0 < b.s0) :
    ∃ t ∈ ts, b.s0 = (score t.2.2 m).1 ∧ b.s1 = (score t.2.2 m).2.1 ∧
      b.s2 = (score t.2.2 m).2.2 ∧ b.cname = some t.1 ∧ b.cindex = some t.2.1 ∧
      ∀ u ∈ ts, (score u.2.2 m).1 ≤ b.s0 := by
  rcases hinv with ⟨hba, _⟩ | ⟨t, ht, ts0, ts1f, ts2f, tcn, tci, _, tle⟩
  · rw [hba, ha] at hb
    exact absurd hb (lt_irrefl 0)
  · exact ⟨t, ht, ts0, ts1f, ts2f, tcn, tci, tle⟩

/-! Mode cum: the accumulator receives the componentwise sums. -/

theorem runCluster_cum (score : Mol → Mol → ℚ × ℚ × ℚ) (m : Mol) (cn : String) :
    ∀ (hits : List Mol) (idx : ℕ) (acc : ScoreAcc),
      runCluster "cum" score m cn idx hits acc =
        Except.ok ⟨acc.s0 + (hits.map fun h => (score h m).1).sum,
          acc.s1 + (hits.map fun h => (score h m).2.1).sum,
          acc.s2 + (hits.map fun h => (score h m).2.2).sum,
          acc.cname, acc.cindex⟩
  | [], idx, acc => by simp [runCluster]
  | h :: hs, idx, acc => by
      have hs1 : stepHit "cum" score m cn (idx + 1) h acc =
          Except.ok ⟨acc.s0 + (score h m).1, acc.s1 + (score h m).2.1,
            acc.s2 + (score h m).2.2, acc.cname, acc.cindex⟩ := by
        simp [stepHit]
      simp only [runCluster, hs1]
      rw [runCluster_cum score m cn hs (idx + 1)]
      simp [List.map_cons, List.sum_cons, add_assoc]

theorem runClusters_cum (score : Mol → Mol → ℚ × ℚ × ℚ) (m : Mol) :
    ∀ (cls : List (String × List Mol)) (acc : ScoreAcc),
      runClusters "cum" score m cls acc =
        Except.ok ⟨acc.s0 + ((hitTriples cls).map fun t => (score t.2.2 m).1).sum,
          acc.s1 + ((hitTriples cls).map fun t => (score t.2.2 m).2.1).sum,
          acc.s2 + ((hitTriples cls).map fun t => (score t.2.2 m).2.2).sum,
          acc.cname, acc.cindex⟩
  | [], acc => by simp [runClusters, hitTriples]
  | c :: cs, acc => by
      simp only [runClusters, runCluster_cum score m c.1 c.2 0 acc]
      rw [runClusters_cum score m cs]
      simp only [hitTriples, List.map_append, List.sum_append, add_assoc]
      rw [clusterTriples_map (fun h => (score h m).1) c.1 c.2 0,
        clusterTriples_map (fun h => (score h m).2.1) c.1 c.2 0,
        clusterTriples_map (fun h => (score h m).2.2) c.1 c.2 0]

/-! Equations and inversion for one step of the input loop. -/

theorem processOne_bad (mode : String) (score : Mol → Mol → ℚ × ℚ × ℚ)
    (cls : List (String × List Mol)) (n : ℕ) (st : Option String × Option ℕ) :
    processOne mode score cls n st Record.bad =
      Except.ok (none, [LogMsg.warnBadMolInput n], st) := rfl

theorem processOne_noFeat (mode : String) (score : Mol → Mol → ℚ × ℚ × ℚ)
    (cls : List (String × List Mol)) (n : ℕ) (st : Option String × Option ℕ)
    (m : Mol) (hf : m.featOk = false) :
    processOne mode score cls n st (Record.good m) =
      Except.ok (none, [LogMsg.warnFeaturesInput n], st) := by
  simp [processOne, hf]

theorem processOne_zero (mode : String) (score : Mol → Mol → ℚ × ℚ × ℚ)
    (cls : List (String × List Mol)) (n : ℕ) (st : Option String × Option ℕ)
    (m : Mol) (acc : ScoreAcc) (hf : m.featOk = true)
    (hrc : runClusters mode score m cls (startAcc st) = Except.ok acc)
    (hz : ¬ 0 < acc.s0) :
    processOne mode score cls n st (Record.good m) =
      Except.ok (none, [LogMsg.didNotOverlay n], acc.cname, acc.cindex) := by
  simp [processOne, hf, hrc, hz]

theorem processOne_writeMax (score : Mol → Mol → ℚ × ℚ × ℚ)
    (cls : List (String × List Mol)) (n : ℕ) (st : Option String × Option ℕ)
    (m : Mol) (acc : ScoreAcc) (cn : String) (ci : ℕ) (hf : m.featOk = true)
    (hrc : runClusters "max" score m cls (startAcc st) = Except.ok acc)
    (hp : 0 < acc.s0) (hcn : acc.cname = some cn) (hci : acc.cindex = some ci) :
    processOne "max" score cls n st (Record.good m) =
      Except.ok (some (annotateMax m acc.s0 acc.s1 acc.s2 cn ci), [],
        acc.cname, acc.cindex) := by
  simp [processOne, hf, hrc, hp, hcn, hci]

theorem processOne_writeCum (mode : String) (score : Mol → Mol → ℚ × ℚ × ℚ)
    (cls : List (String × List Mol)) (n : ℕ) (st : Option String × Option ℕ)
    (m : Mol) (acc : ScoreAcc) (hf : m.featOk = true)
    (hrc : runClusters mode score m cls (startAcc st) = Except.ok acc)
    (hp : 0 < acc.s0) (hmode : ¬ mode = "max") :
    processOne mode score cls n st (Record.good m) =
      Except.ok (some (annotateCum m acc.s0 acc.s1 acc.s2), [],
        acc.cname, acc.cindex) := by
  simp [processOne, hf, hrc, hp, hmode]

theorem processOne_inv (mode : String) (score : Mol → Mol → ℚ × ℚ × ℚ)
    (cls : List (String × List Mol)) (n : ℕ) (st : Option String × Option ℕ)
    (r : Record) (o : Option Mol) (l : List LogMsg)
    (st2 : Option String × Option ℕ) (w : Mol)
    (h : processOne mode score cls n st r = Except.ok (o, l, st2))
    (hw : w ∈ o.toList) :
    ∃ m acc, r = Record.good m ∧ m.featOk = true ∧
      runClusters mode score m cls (startAcc st) = Except.ok acc ∧
      0 < acc.s0 ∧ st2 = (acc.cname, acc.cindex) ∧
      ((mode = "max" ∧ ∃ cn ci, acc.cname = some cn ∧ acc.cindex = some ci ∧
          w = annotateMax m acc.s0 acc.s1 acc.s2 cn ci) ∨
       (¬ mode = "max" ∧ w = annotateCum m acc.s0 acc.s1 acc.s2)) := by
  cases r with
  | bad =>
      rw [processOne_bad] at h
      cases h
      simp at hw
  | good m =>
      by_cases hf : m.featOk
      · simp only [processOne, hf, if_true] at h
        cases hrc : runClusters mode score m cls (startAcc st) with
        | error e => rw [hrc] at h; cases h
        | ok acc =>
            rw [hrc] at h
            simp only at h
            by_cases hp : 0 < acc.s0
            · rw [if_pos hp] at h
              by_cases hm : mode = "max"
              · rw [if_pos hm] at h
                cases hcn : acc.cname with
                | none => rw [hcn] at h; cases hci : acc.cindex <;>
                    rw [hci] at h <;> cases h
                | some cn =>
                    cases hci : acc.cindex with
                    | none => rw [hcn, hci] at h; cases h
                    | some ci =>
                        rw [hcn, hci] at h
                        cases h
                        simp only [Option.toList_some, List.mem_singleton] at hw
                        subst hw
                        exact ⟨m, acc, rfl, hf, hrc, hp, by rw [hcn, hci], Or.inl
                          ⟨hm, cn, ci, hcn, hci, rfl⟩⟩
              · rw [if_neg hm] at h
                cases h
                simp only [Option.toList_some, List.mem_singleton] at hw
                subst hw
                exact ⟨m, acc, rfl, hf, hrc, hp, rfl, Or.inr ⟨hm, rfl⟩⟩
            · rw [if_neg hp] at h
              cases h
              simp at hw
      · rw [processOne_noFeat mode score cls n st m (by simpa using hf)] at h
        cases h
        simp at hw

/-! The input loop decomposes over list append, and every written molecule
comes from a good, featurized input record with positive aggregate score. -/

theorem processMols_append (mode : String) (score : Mol → Mol → ℚ × ℚ × ℚ)
    (cls : List (String × List Mol)) :
    ∀ (xs ys : List Record) (st : Option String × Option ℕ) (n : ℕ)
      (out : List Mol) (lg : List LogMsg) (stf : Option String × Option ℕ),
      processMols mode score cls st n (xs ++ ys) = Except.ok (out, lg, stf) →
      ∃ o1 l1 st1 o2 l2,
        processMols mode score cls st n xs = Except.ok (o1, l1, st1) ∧
        processMols mode score cls st1 (n + xs.length) ys =
          Except.ok (o2, l2, stf) ∧
        out = o1 ++ o2 ∧ lg = l1 ++ l2
  | [], ys, st, n, out, lg, stf => by
      intro h
      exact ⟨[], [], st, out, lg, rfl, by simpa using h, by simp, by simp⟩
  | r :: xs, ys, st, n, out, lg, stf => by
      intro h
      rw [List.cons_append, processMols] at h
      cases hpo : processOne mode score cls (n + 1) st r with
      | error e => rw [hpo] at h; cases h
      | ok q =>
          obtain ⟨o, l, st2⟩ := q
          rw [hpo] at h
          simp only at h
          cases hpm : processMols mode score cls st2 (n + 1) (xs ++ ys) with
          | error e => rw [hpm] at h; cases h
          | ok q2 =>
              obtain ⟨os, ls, st3⟩ := q2
              rw [hpm] at h
              simp only at h
              cases h
              obtain ⟨o1, l1, st1, o2, l2, h1, h2, h3, h4⟩ :=
                processMols_append mode score cls xs ys st2 (n + 1) os ls stf hpm
              refine ⟨o.toList ++ o1, l ++ l1, st1, o2, l2, ?_, ?_, ?_, ?_⟩
              · rw [processMols, hpo]
                simp only
                rw [h1]
              · have : n + 1 + xs.length = n + (r :: xs).length := by
                  simp [List.length_cons]; omega
                rw [← this]
                exact h2
              · rw [h3, List.append_assoc]
              · rw [h4, List.append_assoc]

theorem processMols_mem (mode : String) (score : Mol → Mol → ℚ × ℚ × ℚ)
    (cls : List (String × List Mol)) :
    ∀ (recs : List Record) (st : Option String × Option ℕ) (n : ℕ)
      (out : List Mol) (lg : List LogMsg) (stf : Option String × Option ℕ)
      (w : Mol),
      processMols mode score cls st n recs = Except.ok (out, lg, stf) →
      w ∈ out →
      ∃ m acc st0, Record.good m ∈ recs ∧ m.featOk = true ∧
        runClusters mode score m cls (startAcc st0) = Except.ok acc ∧
        0 < acc.s0 ∧
        ((mode = "max" ∧ ∃ cn ci, acc.cname = some cn ∧ acc.cindex = some ci ∧
            w = annotateMax m acc.s0 acc.s1 acc.s2 cn ci) ∨
         (¬ mode = "max" ∧ w = annotateCum m acc.s0 acc.s1 acc.s2))
  | [], st, n, out, lg, stf, w => by
      intro h hw
      cases h
      simp at hw
  | r :: rs, st, n, out, lg, stf, w => by
      intro h hw
      rw [processMols] at h
      cases hpo : processOne mode score cls (n + 1) st r with
      | error e => rw [hpo] at h; cases h
      | ok q =>
          obtain ⟨o, l, st2⟩ := q
          rw [hpo] at h
          simp only at h
          cases hpm : processMols mode score cls st2 (n + 1) rs with
          | error e => rw [hpm] at h; cases h
          | ok q2 =>
              obtain ⟨os, ls, st3⟩ := q2
              rw [hpm] at h
              simp only at h
              cases h
              rcases List.mem_append.mp hw with h1 | h2
              · obtain ⟨m, acc, hr, hf, hrc, hp, _, hcase⟩ :=
                  processOne_inv mode score cls (n + 1) st r o l st2 w hpo h1
                exact ⟨m, acc, st, hr ▸ List.mem_cons_self _ _, hf, hrc, hp, hcase⟩
              · obtain ⟨m, acc, st0, hm, hf, hrc, hp, hcase⟩ :=
                  processMols_mem mode score cls rs st2 (n + 1) os ls stf w hpm h2
                exact ⟨m, acc, st0, List.mem_cons_of_mem r hm, hf, hrc, hp, hcase⟩

/-! In mode max the whole pipeline always succeeds: the latent read of
`cluster_name` / `cluster_index` is unreachable because a positive best
score implies an update assigned them. -/

theorem processOne_max_ok (score : Mol → Mol → ℚ × ℚ × ℚ)
    (cls : List (String × List Mol)) (n : ℕ) (st : Option String × Option ℕ)
    (r : Record) :
    ∃ q, processOne "max" score cls n st r = Except.ok q := by
  cases r with
  | bad => exact ⟨_, processOne_bad "max" score cls n st⟩
  | good m =>
      by_cases hf : m.featOk
      · obtain ⟨acc, hrc, hinv⟩ := runClusters_max score m cls (startAcc st)
        by_cases hp : 0 < acc.s0
        · obtain ⟨t, _, _, _, _, hcn, hci, _⟩ :=
            maxInv_final score m (hitTriples cls) (startAcc st) acc hinv rfl hp
          exact ⟨_, processOne_writeMax score cls n st m acc t.1 t.2.1 hf hrc hp
            hcn hci⟩
        · exact ⟨_, processOne_zero "max" score cls n st m acc hf hrc hp⟩
      · exact ⟨_, processOne_noFeat "max" score cls n st m (by simpa using hf)⟩

theorem processMols_max_ok (score : Mol → Mol → ℚ × ℚ × ℚ)
    (cls : List (String × List Mol)) :
    ∀ (recs : List Record) (st : Option String × Option ℕ) (n : ℕ),
      ∃ q, processMols "max" score cls st n recs = Except.ok q
  | [], st, n => ⟨_, rfl⟩
  | r :: rs, st, n => by
      obtain ⟨⟨o, l, st2⟩, hpo⟩ := processOne_max_ok score cls (n + 1) st r
      obtain ⟨⟨os, ls, st3⟩, hpm⟩ := processMols_max_ok score cls rs st2 (n + 1)
      refine ⟨(o.toList ++ os, l ++ ls, st3), ?_⟩
      rw [processMols, hpo]
      simp only
      rw [hpm]

theorem process_max_ok (score : Mol → Mol → ℚ × ℚ × ℚ)
    (files : String → List Record) (input : List Record) (names : List String) :
    ∃ p, process score files input names "max" = Except.ok p := by
  obtain ⟨⟨out, lg, stf⟩, hpm⟩ := processMols_max_ok score
    (buildClusters files names).1 input (none, none) 0
  exact ⟨(out, (buildClusters files names).2 ++ lg), by simp only [process, hpm]⟩

/-! An invalid mode raises `ValueError` exactly when a comparison happens. -/

theorem runCluster_badmode (mode : String) (score : Mol → Mol → ℚ × ℚ × ℚ)
    (m : Mol) (cn : String) (h1 : ¬ mode = "max") (h2 : ¬ mode = "cum")
    (h : Mol) (hs : List Mol) (idx : ℕ) (acc : ScoreAcc) :
    runCluster mode score m cn idx (h :: hs) acc =
      Except.error (Err.valueError ("Invalid mode: " ++ mode)) := by
  rw [runCluster]
  have hstep : stepHit mode score m cn (idx + 1) h acc =
      Except.error (Err.valueError ("Invalid mode: " ++ mode)) := by
    simp [stepHit, h1, h2]
  rw [hstep]

theorem runClusters_badmode (mode : String) (score : Mol → Mol → ℚ × ℚ × ℚ)
    (m : Mol) (h1 : ¬ mode = "max") (h2 : ¬ mode = "cum") :
    ∀ (cls : List (String × List Mol)) (acc : ScoreAcc),
      hitTriples cls ≠ [] →
      runClusters mode score m cls acc =
        Except.error (Err.valueError ("Invalid mode: " ++ mode))
  | [], acc, hne => absurd rfl hne
  | c :: cs, acc, hne => by
      rcases hhits : c.2 with _ | ⟨h, hs⟩
      · have hc : clusterTriples c.1 0 c.2 = [] := by rw [hhits]; rfl
        have hne2 : hitTriples cs ≠ [] := by
          intro he
          exact hne (by simp [hitTriples, hc, he])
        rw [runClusters]
        have hrc : runCluster mode score m c.1 0 c.2 acc = Except.ok acc := by
          rw [hhits]; rfl
        rw [hrc]
        exact runClusters_badmode mode score m h1 h2 cs acc hne2
      · rw [runClusters, hhits,
          runCluster_badmode mode score m c.1 h1 h2 h hs 0 acc]

theorem processMols_badmode (mode : String) (score : Mol → Mol → ℚ × ℚ × ℚ)
    (cls : List (String × List Mol)) (h1 : ¬ mode = "max") (h2 : ¬ mode = "cum")
    (hne : hitTriples cls ≠ []) :
    ∀ (recs : List Record) (st : Option String × Option ℕ) (n : ℕ) (m : Mol),
      Record.good m ∈ recs → m.featOk = true →
      processMols mode score cls st n recs =
        Except.error (Err.valueError ("Invalid mode: " ++ mode))
  | [], st, n, m, hm, hf => absurd hm (List.not_mem_nil _)
  | r :: rs, st, n, m, hm, hf => by
      cases r with
      | bad =>
          have hm2 : Record.good m ∈ rs := by
            rcases List.mem_cons.mp hm with h | h
            · cases h
            · exact h
          rw [processMols, processOne_bad]
          simp only
          rw [processMols_badmode mode score cls h1 h2 hne rs st (n + 1) m hm2 hf]
      | good m2 =>
          by_cases hf2 : m2.featOk
          · have hrc := runClusters_badmode mode score m2 h1 h2 cls
              (startAcc st) hne
            rw [processMols]
            have hpo : processOne mode score cls (n + 1) st (Record.good m2) =
                Except.error (Err.valueError ("Invalid mode: " ++ mode)) := by
              simp [processOne, hf2, hrc]
            rw [hpo]
          · have hm2 : Record.good m ∈ rs := by
              rcases List.mem_cons.mp hm with h | h
              · injection h with h
                rw [h] at hf
                rw [hf] at hf2
                exact absurd rfl hf2
              · exact h
            rw [processMols,
              processOne_noFeat mode score cls (n + 1) st m2 (by simpa using hf2)]
            simp only
            rw [processMols_badmode mode score cls h1 h2 hne rs st (n + 1) m hm2 hf]

theorem process_badmode (mode : String) (score : Mol → Mol → ℚ × ℚ × ℚ)
    (files : String → List Record) (input : List Record) (names : List String)
    (m : Mol) (h1 : ¬ mode = "max") (h2 : ¬ mode = "cum")
    (hne : hitTriples (buildClusters files names).1 ≠ [])
    (hm : Record.good m ∈ input) (hf : m.featOk = true) :
    process score files input names mode =
      Except.error (Err.valueError ("Invalid mode: " ++ mode)) := by
  simp only [process, processMols_badmode mode score (buildClusters files names).1
    h1 h2 hne input (none, none) 0 m hm hf]

theorem runClusters_max_inv (score : Mol → Mol → ℚ × ℚ × ℚ) (m : Mol)
    (cls : List (String × List Mol)) (a acc : ScoreAcc)
    (h : runClusters "max" score m cls a = Except.ok acc) :
    MaxInv score m (hitTriples cls) a acc := by
  obtain ⟨b, hb, hinv⟩ := runClusters_max score m cls a
  rw [h] at hb
  cases hb
  exact hinv

/-! Position bookkeeping: the index of an element of the filtered list
against its record position in the unfiltered list. -/

theorem filterMap_get_pos {α β : Type} (g : α → Option β) :
    ∀ (xs : List α) (i : ℕ) (b : β),
      (xs.filterMap g).get? i = some b →
      ∃ j x, xs.get? j = some x ∧ g x = some b ∧
        j = i + ((xs.take j).countP fun y => (g y).isNone)
  | [], i, b => by intro h; simp at h
  | x :: xs, i, b => by
      intro h
      cases hg : g x with
      | none =>
          rw [List.filterMap_cons_none hg] at h
          obtain ⟨j, y, hy, hgy, hj⟩ := filterMap_get_pos g xs i b h
          refine ⟨j + 1, y, by simpa using hy, hgy, ?_⟩
          rw [List.take_succ_cons, List.countP_cons]
          simp [hg]
          omega
      | some v =>
          rw [List.filterMap_cons_some hg] at h
          cases i with
          | zero =>
              simp only [List.get?] at h
              cases h
              exact ⟨0, x, rfl, hg, by simp⟩
          | succ i =>
              simp only [List.get?] at h
              obtain ⟨j, y, hy, hgy, hj⟩ := filterMap_get_pos g xs i b h
              refine ⟨j + 1, y, by simpa using hy, hgy, ?_⟩
              rw [List.take_succ_cons, List.countP_cons]
              simp [hg]
              omega

/-! Reading the annotations back, and the frame property: annotation only
touches its own keys. -/

theorem annotateMax_prop_score (m : Mol) (s fm v : ℚ) (cn : String) (ci : ℕ) :
    (annotateMax m s fm v cn ci).props "Max_SuCOS_Score" = some (PropVal.dbl s) := rfl

theorem annotateMax_prop_fm (m : Mol) (s fm v : ℚ) (cn : String) (ci : ℕ) :
    (annotateMax m s fm v cn ci).props "Max_SuCOS_FeatureMap_Score" =
      some (PropVal.dbl fm) := rfl

theorem annotateMax_prop_vol (m : Mol) (s fm v : ℚ) (cn : String) (ci : ℕ) :
    (annotateMax m s fm v cn ci).props "Max_SuCOS_Protrude_Score" =
      some (PropVal.dbl v) := rfl

theorem annotateMax_prop_cluster (m : Mol) (s fm v : ℚ) (cn : String) (ci : ℕ) :
    (annotateMax m s fm v cn ci).props "Max_SuCOS_Cluster" =
      some (PropVal.str (baseName cn)) := rfl

theorem annotateMax_prop_index (m : Mol) (s fm v : ℚ) (cn : String) (ci : ℕ) :
    (annotateMax m s fm v cn ci).props "Max_SuCOS_Index" =
      some (PropVal.int (ci : ℤ)) := rfl

theorem annotateCum_prop_score (m : Mol) (s fm v : ℚ) :
    (annotateCum m s fm v).props "Cum_SuCOS_Score" = some (PropVal.dbl s) := rfl

theorem annotateCum_prop_fm (m : Mol) (s fm v : ℚ) :
    (annotateCum m s fm v).props "Cum_SuCOS_FeatureMap_Score" =
      some (PropVal.dbl fm) := rfl

theorem annotateCum_prop_vol (m : Mol) (s fm v : ℚ) :
    (annotateCum m s fm v).props "Cum_SuCOS_Protrude_Score" =
      some (PropVal.dbl v) := rfl

theorem annotateMax_frame (m : Mol) (s fm v : ℚ) (cn : String) (ci : ℕ)
    (k : String) (hk : ¬ k ∈ maxKeys) :
    (annotateMax m s fm v cn ci).props k = m.props k := by
  simp only [maxKeys, List.mem_cons, List.not_mem_nil, or_false, not_or] at hk
  obtain ⟨h1, h2, h3, h4, h5⟩ := hk
  simp [annotateMax, setProp, h1, h2, h3, h4, h5]

theorem annotateCum_frame (m : Mol) (s fm v : ℚ) (k : String)
    (hk : ¬ k ∈ cumKeys) :
    (annotateCum m s fm v).props k = m.props k := by
  simp only [cumKeys, List.mem_cons, List.not_mem_nil, or_false, not_or] at hk
  obtain ⟨h1, h2, h3⟩ := hk
  simp [annotateCum, setProp, h1, h2, h3]

theorem annotateMax_isSome (m : Mol) (s fm v : ℚ) (cn : String) (ci : ℕ)
    (k : String) (hk : k ∈ maxKeys) :
    ((annotateMax m s fm v cn ci).props k).isSome = true := by
  simp only [maxKeys, List.mem_cons, List.not_mem_nil, or_false] at hk
  rcases hk with rfl | rfl | rfl | rfl | rfl <;> rfl

theorem annotateCum_isSome (m : Mol) (s fm v : ℚ) (k : String)
    (hk : k ∈ cumKeys) :
    ((annotateCum m s fm v).props k).isSome = true := by
  simp only [cumKeys, List.mem_cons, List.not_mem_nil, or_false] at hk
  rcases hk with rfl | rfl | rfl <;> rfl

/-- A written molecule is its query molecule with one of the two
annotation shapes applied. -/
def annotatedFrom (m w : Mol) : Prop :=
  (∃ s fm v cn ci, w = annotateMax m s fm v cn ci) ∨
  (∃ s fm v, w = annotateCum m s fm v)

theorem processMols_sublist (mode : String) (score : Mol → Mol → ℚ × ℚ × ℚ)
    (cls : List (String × List Mol)) :
    ∀ (recs : List Record) (st : Option String × Option ℕ) (n : ℕ)
      (out : List Mol) (lg : List LogMsg) (stf : Option String × Option ℕ),
      processMols mode score cls st n recs = Except.ok (out, lg, stf) →
      ∃ sel, List.Sublist sel (inputMols recs) ∧
        List.Forall₂ annotatedFrom sel out
  | [], st, n, out, lg, stf => by
      intro h
      cases h
      exact ⟨[], List.Sublist.refl [], List.Forall₂.nil⟩
  | r :: rs, st, n, out, lg, stf => by
      intro h
      rw [processMols] at h
      cases hpo : processOne mode score cls (n + 1) st r with
      | error e => rw [hpo] at h; cases h
      | ok q =>
          obtain ⟨o, l, st2⟩ := q
          rw [hpo] at h
          simp only at h
          cases hpm : processMols mode score cls st2 (n + 1) rs with
          | error e => rw [hpm] at h; cases h
          | ok q2 =>
              obtain ⟨os, ls, st3⟩ := q2
              rw [hpm] at h
              simp only at h
              cases h
              obtain ⟨sel2, hsub, hfa⟩ :=
                processMols_sublist mode score cls rs st2 (n + 1) os ls stf hpm
              cases o with
              | none =>
                  cases r with
                  | bad =>
                      refine ⟨sel2, ?_, by simpa using hfa⟩
                      simpa [inputMols, List.filterMap_cons] using hsub
                  | good m =>
                      refine ⟨sel2, ?_, by simpa using hfa⟩
                      have : inputMols (Record.good m :: rs) = m :: inputMols rs := by
                        simp [inputMols, List.filterMap_cons]
                      rw [this]
                      exact hsub.cons m
              | some w =>
                  obtain ⟨m, acc, hr, hf, hrc, hp, hst, hcase⟩ :=
                    processOne_inv mode score cls (n + 1) st r (some w) l st2 w
                      hpo (by simp)
                  subst hr
                  have hin : inputMols (Record.good m :: rs) = m :: inputMols rs := by
                    simp [inputMols, List.filterMap_cons]
                  refine ⟨m :: sel2, ?_, ?_⟩
                  · rw [hin]
                    exact hsub.cons₂ m
                  · refine List.Forall₂.cons ?_ hfa
                    rcases hcase with ⟨_, cn, ci, _, _, hw⟩ | ⟨_, hw⟩
                    · exact Or.inl ⟨acc.s0, acc.s1, acc.s2, cn, ci, hw⟩
                    · exact Or.inr ⟨acc.s0, acc.s1, acc.s2, hw⟩

theorem process_inv (score : Mol → Mol → ℚ × ℚ × ℚ)
    (files : String → List Record) (input : List Record) (names : List String)
    (mode : String) (out : List Mol) (lg : List LogMsg)
    (h : process score files input names mode = Except.ok (out, lg)) :
    ∃ lg0 stf, processMols mode score (buildClusters files names).1
        (none, none) 0 input = Except.ok (out, lg0, stf) ∧
      lg = (buildClusters files names).2 ++ lg0 := by
  simp only [process] at h
  cases hpm : processMols mode score (buildClusters files names).1
      (none, none) 0 input with
  | error e => rw [hpm] at h; cases h
  | ok q =>
      obtain ⟨o, l, st⟩ := q
      rw [hpm] at h
      simp only at h
      cases h
      exact ⟨l, st, rfl, rfl⟩

theorem processOne_good_inv (mode : String) (score : Mol → Mol → ℚ × ℚ × ℚ)
    (cls : List (String × List Mol)) (n : ℕ) (st : Option String × Option ℕ)
    (m : Mol) (o : Option Mol) (l : List LogMsg) (st2 : Option String × Option ℕ)
    (hf : m.featOk = true)
    (h : processOne mode score cls n st (Record.good m) = Except.ok (o, l, st2)) :
    ∃ acc, runClusters mode score m cls (startAcc st) = Except.ok acc ∧
      st2 = (acc.cname, acc.cindex) ∧
      ((0 < acc.s0 ∧ ∃ wr, o = some wr ∧ l = []) ∨
       (¬ 0 < acc.s0 ∧ o = none ∧ l = [LogMsg.didNotOverlay n])) := by
  simp only [processOne, hf, if_true] at h
  cases hrc : runClusters mode score m cls (startAcc st) with
  | error e => rw [hrc] at h; cases h
  | ok acc =>
      rw [hrc] at h
      simp only at h
      by_cases hp : 0 < acc.s0
      · rw [if_pos hp] at h
        by_cases hm : mode = "max"
        · rw [if_pos hm] at h
          cases hcn : acc.cname with
          | none => rw [hcn] at h; cases hci : acc.cindex <;> rw [hci] at h <;>
              cases h
          | some cn =>
              cases hci : acc.cindex with
              | none => rw [hcn, hci] at h; cases h
              | some ci =>
                  rw [hcn, hci] at h
                  cases h
                  exact ⟨acc, rfl, by rw [hcn, hci], Or.inl ⟨hp, _, rfl, rfl⟩⟩
        · rw [if_neg hm] at h
          cases h
          exact ⟨acc, rfl, rfl, Or.inl ⟨hp, _, rfl, rfl⟩⟩
      · rw [if_neg hp] at h
        cases h
        exact ⟨acc, rfl, rfl, Or.inr ⟨hp, rfl, rfl⟩⟩

/-- Claim C1: in mode max, every molecule written to the output carries in
Max_SuCOS_Score the maximum SuCOS score of its query molecule over all
hits in all cluster files, and in the other four annotations the feature
map score, protrude score, cluster file name and hit index of a hit that
attains this maximum. -/
theorem claim1_max_annotations (score : Mol → Mol → ℚ × ℚ × ℚ)
    (files : String → List Record) (input : List Record) (names : List String)
    (out : List Mol) (lg : List LogMsg) (w : Mol)
    (hnd : names.Nodup)
    (hok : process score files input names "max" = Except.ok (out, lg))
    (hw : w ∈ out) :
    ∃ m t, Record.good m ∈ input ∧ m.featOk = true ∧
      t ∈ hitTriples (names.map fun g => (g, clusterMols (files g))) ∧
      w.props "Max_SuCOS_Score" = some (PropVal.dbl (score t.2.2 m).1) ∧
      w.props "Max_SuCOS_FeatureMap_Score" =
        some (PropVal.dbl (score t.2.2 m).2.1) ∧
      w.props "Max_SuCOS_Protrude_Score" =
        some (PropVal.dbl (score t.2.2 m).2.2) ∧
      w.props "Max_SuCOS_Cluster" = some (PropVal.str (baseName t.1)) ∧
      w.props "Max_SuCOS_Index" = some (PropVal.int (t.2.1 : ℤ)) ∧
      ∀ u ∈ hitTriples (names.map fun g => (g, clusterMols (files g))),
        (score u.2.2 m).1 ≤ (score t.2.2 m).1 := by
  obtain ⟨lg0, stf, hpm, hlg⟩ :=
    process_inv score files input names "max" out lg hok
  obtain ⟨m, acc, st0, hmem, hf, hrc, hp, hcase⟩ :=
    processMols_mem "max" score (buildClusters files names).1 input
      (none, none) 0 out lg0 stf w hpm hw
  rcases hcase with ⟨_, cn, ci, hcn, hci, hweq⟩ | ⟨hne, _⟩
  · have hinv := runClusters_max_inv score m (buildClusters files names).1
      (startAcc st0) acc hrc
    rw [buildClusters_fst files names hnd] at hinv
    obtain ⟨t, ht, hs0, hs1, hs2, hcn2, hci2, hle⟩ :=
      maxInv_final score m _ (startAcc st0) acc hinv rfl hp
    have hcnt : cn = t.1 := by
      rw [hcn] at hcn2
      injection hcn2
    have hcit : ci = t.2.1 := by
      rw [hci] at hci2
      injection hci2
    subst hweq
    refine ⟨m, t, hmem, hf, ht, ?_, ?_, ?_, ?_, ?_, ?_⟩
    · rw [annotateMax_prop_score, hs0]
    · rw [annotateMax_prop_fm, hs1]
    · rw [annotateMax_prop_vol, hs2]
    · rw [annotateMax_prop_cluster, hcnt]
    · rw [annotateMax_prop_index, hcit]
    · intro u hu
      rw [← hs0]
      exact hle u hu
  · exact absurd rfl hne

/-- Claim C2: in mode cum, every molecule written to the output carries in
Cum_SuCOS_Score, Cum_SuCOS_FeatureMap_Score and Cum_SuCOS_Protrude_Score
the sums of the SuCOS scores, feature map scores and protrude scores of
its query molecule over all hits in all cluster files. -/
theorem claim2_cum_annotations (score : Mol → Mol → ℚ × ℚ × ℚ)
    (files : String → List Record) (input : List Record) (names : List String)
    (out : List Mol) (lg : List LogMsg) (w : Mol)
    (hnd : names.Nodup)
    (hok : process score files input names "cum" = Except.ok (out, lg))
    (hw : w ∈ out) :
    ∃ m, Record.good m ∈ input ∧ m.featOk = true ∧
      w.props "Cum_SuCOS_Score" = some (PropVal.dbl
        (((hitTriples (names.map fun g => (g, clusterMols (files g)))).map
          fun t => (score t.2.2 m).1).sum)) ∧
      w.props "Cum_SuCOS_FeatureMap_Score" = some (PropVal.dbl
        (((hitTriples (names.map fun g => (g, clusterMols (files g)))).map
          fun t => (score t.2.2 m).2.1).sum)) ∧
      w.props "Cum_SuCOS_Protrude_Score" = some (PropVal.dbl
        (((hitTriples (names.map fun g => (g, clusterMols (files g)))).map
          fun t => (score t.2.2 m).2.2).sum)) := by
  obtain ⟨lg0, stf, hpm, hlg⟩ :=
    process_inv score files input names "cum" out lg hok
  obtain ⟨m, acc, st0, hmem, hf, hrc, hp, hcase⟩ :=
    processMols_mem "cum" score (buildClusters files names).1 input
      (none, none) 0 out lg0 stf w hpm hw
  rcases hcase with ⟨hmx, _⟩ | ⟨_, hweq⟩
  · exact absurd hmx (by decide)
  · have hcum := runClusters_cum score m (buildClusters files names).1
      (startAcc st0)
    rw [hrc] at hcum
    injection hcum with hacc
    rw [buildClusters_fst files names hnd] at hacc
    subst hacc
    simp only [startAcc, zero_add] at hweq
    subst hweq
    exact ⟨m, hmem, hf, annotateCum_prop_score m _ _ _,
      annotateCum_prop_fm m _ _ _, annotateCum_prop_vol m _ _ _⟩

/-- Claim C8: in mode max a positive best score implies that an update in
the scoring loop assigned cluster_name and cluster_index, so reading them
in the output branch never fails; consequently the pipeline in mode max
never aborts with a NameError (it always returns an output). -/
theorem claim8_assigned (score : Mol → Mol → ℚ × ℚ × ℚ) (m : Mol)
    (cls : List (String × List Mol)) (st0 : Option String × Option ℕ)
    (acc : ScoreAcc)
    (hrc : runClusters "max" score m cls (startAcc st0) = Except.ok acc)
    (hpos : 0 < acc.s0) :
    acc.cname.isSome = true ∧ acc.cindex.isSome = true ∧
    ∀ files input names, ∃ p,
      process score files input names "max" = Except.ok p := by
  have hinv := runClusters_max_inv score m cls (startAcc st0) acc hrc
  obtain ⟨t, _, _, _, _, hcn, hci, _⟩ :=
    maxInv_final score m (hitTriples cls) (startAcc st0) acc hinv rfl hpos
  refine ⟨by rw [hcn]; rfl, by rw [hci]; rfl, ?_⟩
  intro files input names
  exact process_max_ok score files input names

/-- Claim C10: the molecules written to the output are, in order, an
annotated selection of the parsed input molecules: a sublist of the input
sequence, each element only annotated, never reordered, duplicated or
invented. -/
theorem claim10_subsequence (score : Mol → Mol → ℚ × ℚ × ℚ)
    (files : String → List Record) (input : List Record) (names : List String)
    (mode : String) (out : List Mol) (lg : List LogMsg)
    (hok : process score files input names mode = Except.ok (out, lg)) :
    ∃ sel, List.Sublist sel (inputMols input) ∧
      List.Forall₂ annotatedFrom sel out := by
  obtain ⟨lg0, stf, hpm, _⟩ :=
    process_inv score files input names mode out lg hok
  exact processMols_sublist mode score (buildClusters files names).1 input
    (none, none) 0 out lg0 stf hpm

/-- Claim C3: a successfully parsed and featurized input molecule whose
score against every hit of every cluster is zero has aggregate score zero
in both modes, is not written to the output, and a warning is logged;
a successfully processed molecule with positive aggregate score is
written. -/
theorem claim3_zero_score_omitted (score : Mol → Mol → ℚ × ℚ × ℚ)
    (files : String → List Record) (names : List String) (mode : String)
    (pre post : List Record) (m : Mol) (out : List Mol) (lg : List LogMsg)
    (hmode : mode = "max" ∨ mode = "cum")
    (hfeat : m.featOk = true)
    (hok : process score files (pre ++ Record.good m :: post) names mode =
      Except.ok (out, lg)) :
    ∃ o1 l1 st1 acc o2 l2 st2,
      processMols mode score (buildClusters files names).1 (none, none) 0 pre =
        Except.ok (o1, l1, st1) ∧
      runClusters mode score m (buildClusters files names).1 (startAcc st1) =
        Except.ok acc ∧
      processMols mode score (buildClusters files names).1
        (acc.cname, acc.cindex) (pre.length + 1) post =
        Except.ok (o2, l2, st2) ∧
      ((∀ t ∈ hitTriples (buildClusters files names).1, (score t.2.2 m).1 = 0) →
        acc.s0 = 0 ∧ out = o1 ++ o2 ∧
        LogMsg.didNotOverlay (pre.length + 1) ∈ lg) ∧
      (0 < acc.s0 → ∃ wr, out = o1 ++ wr :: o2) := by
  obtain ⟨lg0, stf, hpm, hlg⟩ :=
    process_inv score files (pre ++ Record.good m :: post) names mode out lg hok
  obtain ⟨o1, l1, st1, oR, lR, h1, h2, hout, hlg0⟩ :=
    processMols_append mode score (buildClusters files names).1 pre
      (Record.good m :: post) (none, none) 0 out lg0 stf hpm
  rw [processMols] at h2
  cases hpo : processOne mode score (buildClusters files names).1
      (0 + pre.length + 1) st1 (Record.good m) with
  | error e => rw [hpo] at h2; cases h2
  | ok q =>
      obtain ⟨o, l, st2⟩ := q
      rw [hpo] at h2
      simp only at h2
      cases hpost : processMols mode score (buildClusters files names).1 st2
          (0 + pre.length + 1) post with
      | error e => rw [hpost] at h2; cases h2
      | ok q2 =>
          obtain ⟨o2, l2, st3⟩ := q2
          rw [hpost] at h2
          simp only at h2
          cases h2
          obtain ⟨acc, hrc, hst2, hbranch⟩ :=
            processOne_good_inv mode score (buildClusters files names).1
              (0 + pre.length + 1) st1 m o l st2 hfeat hpo
          subst hst2
          simp only [Nat.zero_add] at hpost hbranch
          refine ⟨o1, l1, st1, acc, o2, l2, stf, h1, hrc, hpost, ?_, ?_⟩
          · intro hall
            have hs0 : acc.s0 = 0 := by
              rcases hmode with hm | hm
              · subst hm
                have hinv := runClusters_max_inv score m
                  (buildClusters files names).1 (startAcc st1) acc hrc
                rcases hinv with ⟨hacc, _⟩ | ⟨t, ht, hts, _, _, _, _, hlt, _⟩
                · rw [hacc]; rfl
                · rw [hts, hall t ht]
              · subst hm
                have hcum := runClusters_cum score m
                  (buildClusters files names).1 (startAcc st1)
                rw [hrc] at hcum
                injection hcum with hacc
                subst hacc
                simp only [startAcc, zero_add]
                apply List.sum_eq_zero
                intro x hx
                obtain ⟨t, ht, hxt⟩ := List.mem_map.mp hx
                rw [← hxt]
                exact hall t ht
            rcases hbranch with ⟨hp, _, _, _⟩ | ⟨_, ho, hl⟩
            · rw [hs0] at hp
              exact absurd hp (by simp)
            · subst ho
              subst hl
              refine ⟨hs0, by simpa using hout, ?_⟩
              rw [hlg, hlg0]
              simp
          · intro hp
            rcases hbranch with ⟨_, wr, ho, _⟩ | ⟨hnp, _, _⟩
            · subst ho
              exact ⟨wr, by simpa using hout⟩
            · exact absurd hp hnp

/-- Claim C4 counterexample: with an invalid mode and empty input there is
no comparison, so `process` returns normally instead of raising; and the
command line path rejects the mode with an argparse exit, which is not a
ValueError.  So the claim that a ValueError is raised regardless of the
file contents is false. -/
theorem claim4_counterexample :
    process (fun _ _ => ((0 : ℚ), (0 : ℚ), (0 : ℚ))) (fun _ => []) [] [] "foo" =
      Except.ok ([], []) ∧
    mainRun (fun _ _ => ((0 : ℚ), (0 : ℚ), (0 : ℚ))) (fun _ => []) [] [] "foo" =
      Except.error Err.argparseExit ∧
    Err.argparseExit ≠ Err.valueError ("Invalid mode: " ++ "foo") :=
  ⟨rfl, rfl, by decide⟩

/-- Claim C4 amended: for a mode that is neither max nor cum, the command
line run always fails fatally at argument parsing (argparse choices, a
SystemExit rather than a ValueError), regardless of file contents; the
process function itself raises ValueError exactly once a comparison is
performed, namely when some input molecule parses and featurizes and the
clusters contain at least one hit. -/
theorem claim4_invalid_mode (mode : String) (h1 : ¬ mode = "max")
    (h2 : ¬ mode = "cum") :
    (∀ score files input names,
      mainRun score files input names mode = Except.error Err.argparseExit) ∧
    (∀ score files input names (m : Mol),
      Record.good m ∈ input → m.featOk = true →
      hitTriples (buildClusters files names).1 ≠ [] →
      process score files input names mode =
        Except.error (Err.valueError ("Invalid mode: " ++ mode))) := by
  constructor
  · intro score files input names
    rw [mainRun, if_neg]
    rintro (h | h)
    · exact h1 h
    · exact h2 h
  · intro score files input names m hm hf hne
    exact process_badmode mode score files input names m h1 h2 hne hm hf

/-- Claim C5: a record that fails to parse is skipped after a warning and
processing continues: in a cluster file it contributes no hit and exactly
one warning, and in the input file it contributes no output molecule and
exactly one warning, the surrounding records being processed as usual. -/
theorem claim5_bad_record_skipped (f : String) (i : ℕ) (mode : String)
    (score : Mol → Mol → ℚ × ℚ × ℚ) (cls : List (String × List Mol))
    (st : Option String × Option ℕ) (n : ℕ) (pre post : List Record)
    (out : List Mol) (lg : List LogMsg) (stf : Option String × Option ℕ)
    (hok : processMols mode score cls st n (pre ++ Record.bad :: post) =
      Except.ok (out, lg, stf)) :
    loadClusterAux f i (pre ++ Record.bad :: post) =
      ((loadClusterAux f i pre).1 ++
         (loadClusterAux f (i + pre.length + 1) post).1,
       (loadClusterAux f i pre).2 ++
         LogMsg.warnBadMolCluster (i + pre.length + 1) f ::
           (loadClusterAux f (i + pre.length + 1) post).2) ∧
    ∃ o1 l1 st1 o2 l2,
      processMols mode score cls st n pre = Except.ok (o1, l1, st1) ∧
      processMols mode score cls st1 (n + pre.length + 1) post =
        Except.ok (o2, l2, stf) ∧
      out = o1 ++ o2 ∧
      lg = l1 ++ LogMsg.warnBadMolInput (n + pre.length + 1) :: l2 := by
  constructor
  · rw [loadClusterAux_append f pre (Record.bad :: post) i]
    rfl
  · obtain ⟨o1, l1, st1, oR, lR, h1, h2, hout, hlg⟩ :=
      processMols_append mode score cls pre (Record.bad :: post) st n out lg
        stf hok
    rw [processMols, processOne_bad] at h2
    simp only at h2
    cases hpost : processMols mode score cls st1 (n + pre.length + 1) post with
    | error e => rw [hpost] at h2; cases h2
    | ok q =>
        obtain ⟨o2, l2, st3⟩ := q
        rw [hpost] at h2
        simp only at h2
        cases h2
        exact ⟨o1, l1, st1, o2, l2, h1, hpost, by simpa using hout,
          by rw [hlg]; simp⟩

/-- Claim C6: a molecule whose feature extraction raises is skipped with a
warning: in a cluster file it is excluded from the cluster used for
scoring, contributing exactly one warning, and in the input file it is
never scored or written, contributing exactly one warning. -/
theorem claim6_feature_failure_skipped (f : String) (i : ℕ) (mode : String)
    (score : Mol → Mol → ℚ × ℚ × ℚ) (cls : List (String × List Mol))
    (st : Option String × Option ℕ) (n : ℕ) (pre post : List Record)
    (mb : Mol) (out : List Mol) (lg : List LogMsg)
    (stf : Option String × Option ℕ)
    (hfb : mb.featOk = false)
    (hok : processMols mode score cls st n (pre ++ Record.good mb :: post) =
      Except.ok (out, lg, stf)) :
    loadClusterAux f i (pre ++ Record.good mb :: post) =
      ((loadClusterAux f i pre).1 ++
         (loadClusterAux f (i + pre.length + 1) post).1,
       (loadClusterAux f i pre).2 ++
         LogMsg.warnFeaturesCluster (i + pre.length + 1) f ::
           (loadClusterAux f (i + pre.length + 1) post).2) ∧
    ∃ o1 l1 st1 o2 l2,
      processMols mode score cls st n pre = Except.ok (o1, l1, st1) ∧
      processMols mode score cls st1 (n + pre.length + 1) post =
        Except.ok (o2, l2, stf) ∧
      out = o1 ++ o2 ∧
      lg = l1 ++ LogMsg.warnFeaturesInput (n + pre.length + 1) :: l2 := by
  constructor
  · rw [loadClusterAux_append f pre (Record.good mb :: post) i]
    simp [loadClusterAux, hfb]
  · obtain ⟨o1, l1, st1, oR, lR, h1, h2, hout, hlg⟩ :=
      processMols_append mode score cls pre (Record.good mb :: post) st n out
        lg stf hok
    rw [processMols, processOne_noFeat mode score cls (n + pre.length + 1)
      st1 mb hfb] at h2
    simp only at h2
    cases hpost : processMols mode score cls st1 (n + pre.length + 1) post with
    | error e => rw [hpost] at h2; cases h2
    | ok q =>
        obtain ⟨o2, l2, st3⟩ := q
        rw [hpost] at h2
        simp only at h2
        cases h2
        exact ⟨o1, l1, st1, o2, l2, h1, hpost, by simpa using hout,
          by rw [hlg]; simp⟩

/-- Claim C7: every molecule written to the output is the corresponding
input molecule with only the mode-specific annotation properties set
(the five Max keys in mode max, the three Cum keys in mode cum); all its
other properties are unchanged. -/
theorem claim7_only_annotations (score : Mol → Mol → ℚ × ℚ × ℚ)
    (files : String → List Record) (input : List Record) (names : List String)
    (mode : String) (out : List Mol) (lg : List LogMsg) (w : Mol)
    (hmode : mode = "max" ∨ mode = "cum")
    (hok : process score files input names mode = Except.ok (out, lg))
    (hw : w ∈ out) :
    ∃ m, Record.good m ∈ input ∧ m.featOk = true ∧
      (∀ k, ¬ k ∈ annotKeys mode → w.props k = m.props k) ∧
      (∀ k ∈ annotKeys mode, (w.props k).isSome = true) := by
  obtain ⟨lg0, stf, hpm, _⟩ :=
    process_inv score files input names mode out lg hok
  obtain ⟨m, acc, st0, hmem, hf, hrc, hp, hcase⟩ :=
    processMols_mem mode score (buildClusters files names).1 input
      (none, none) 0 out lg0 stf w hpm hw
  rcases hcase with ⟨hmx, cn, ci, _, _, hweq⟩ | ⟨hnmx, hweq⟩
  · subst hmx
    subst hweq
    have hkeys : annotKeys "max" = maxKeys := rfl
    refine ⟨m, hmem, hf, ?_, ?_⟩
    · intro k hk
      rw [hkeys] at hk
      exact annotateMax_frame m acc.s0 acc.s1 acc.s2 cn ci k hk
    · intro k hk
      rw [hkeys] at hk
      exact annotateMax_isSome m acc.s0 acc.s1 acc.s2 cn ci k hk
  · have hcm : mode = "cum" := by
      rcases hmode with h | h
      · exact absurd h hnmx
      · exact h
    subst hcm
    subst hweq
    have hkeys : annotKeys "cum" = cumKeys := rfl
    refine ⟨m, hmem, hf, ?_, ?_⟩
    · intro k hk
      rw [hkeys] at hk
      exact annotateCum_frame m acc.s0 acc.s1 acc.s2 k hk
    · intro k hk
      rw [hkeys] at hk
      exact annotateCum_isSome m acc.s0 acc.s1 acc.s2 k hk

/-- Claim C9: the reported Max_SuCOS_Index is the 1-based position of the
best hit among the successfully parsed and featurized hits of its cluster
file; and the record position of a kept hit in the raw file exceeds its
filtered position by exactly the number of earlier skipped records, so the
reported index differs from the record position whenever an earlier record
of that file was skipped. -/
theorem claim9_index_semantics (score : Mol → Mol → ℚ × ℚ × ℚ)
    (files : String → List Record) (input : List Record) (names : List String)
    (out : List Mol) (lg : List LogMsg) (w : Mol)
    (hnd : names.Nodup)
    (hok : process score files input names "max" = Except.ok (out, lg))
    (hw : w ∈ out) :
    (∃ (m : Mol) (g : String) (hit : Mol) (ci : ℕ),
      Record.good m ∈ input ∧ g ∈ names ∧
      w.props "Max_SuCOS_Cluster" = some (PropVal.str (baseName g)) ∧
      w.props "Max_SuCOS_Index" = some (PropVal.int (ci : ℤ)) ∧
      1 ≤ ci ∧ (clusterMols (files g)).get? (ci - 1) = some hit ∧
      w.props "Max_SuCOS_Score" = some (PropVal.dbl (score hit m).1)) ∧
    (∀ (recs : List Record) (i : ℕ) (hit : Mol),
      (clusterMols recs).get? i = some hit →
      ∃ j, recs.get? j = some (Record.good hit) ∧
        j = i + ((recs.take j).countP fun r => (keptRec r).isNone) ∧
        (0 < ((recs.take j).countP fun r => (keptRec r).isNone) → i < j)) := by
  constructor
  · obtain ⟨lg0, stf, hpm, _⟩ :=
      process_inv score files input names "max" out lg hok
    obtain ⟨m, acc, st0, hmem, hf, hrc, hp, hcase⟩ :=
      processMols_mem "max" score (buildClusters files names).1 input
        (none, none) 0 out lg0 stf w hpm hw
    rcases hcase with ⟨_, cn, ci, hcn, hci, hweq⟩ | ⟨hne, _⟩
    · have hinv := runClusters_max_inv score m (buildClusters files names).1
        (startAcc st0) acc hrc
      rw [buildClusters_fst files names hnd] at hinv
      obtain ⟨t, ht, hs0, _, _, hcn2, hci2, _⟩ :=
        maxInv_final score m _ (startAcc st0) acc hinv rfl hp
      obtain ⟨c, hc, htc⟩ := hitTriples_mem _ t ht
      obtain ⟨g, hg, hgc⟩ := List.mem_map.mp hc
      obtain ⟨ht1, j, hj, hget⟩ := clusterTriples_mem c.1 c.2 0 t htc
      have hcnt : cn = t.1 := by
        rw [hcn] at hcn2
        injection hcn2
      have hcit : ci = t.2.1 := by
        rw [hci] at hci2
        injection hci2
      have hg1 : c.1 = g := by rw [← hgc]
      have hg2 : c.2 = clusterMols (files g) := by rw [← hgc]
      subst hweq
      refine ⟨m, g, t.2.2, ci, hmem, hg, ?_, ?_, ?_, ?_, ?_⟩
      · rw [annotateMax_prop_cluster, hcnt, ht1, hg1]
      · rw [annotateMax_prop_index]
      · omega
      · have hci1 : ci - 1 = j := by omega
        rw [hci1, ← hg2]
        exact hget
      · rw [annotateMax_prop_score, hs0]
    · exact absurd rfl hne
  · intro recs i hit h
    simp only [clusterMols] at h
    obtain ⟨j, x, hx, hgx, hj⟩ := filterMap_get_pos keptRec recs i hit h
    cases x with
    | bad => cases hgx
    | good m2 =>
        by_cases hf2 : m2.featOk
        · have hm2 : m2 = hit := by
            simp only [keptRec, hf2, if_true] at hgx
            injection hgx
          subst hm2
          exact ⟨j, hx, hj, by omega⟩
        · simp only [keptRec, hf2, if_false] at hgx
          cases hgx

/-! Concrete instances used by the witnesses below. -/

/-- A molecule with no properties whose feature generation succeeds. -/
def molA : Mol := { props := fun _ => none, featOk := true }

/-- A molecule whose feature generation raises. -/
def molB : Mol := { props := fun _ => none, featOk := false }

/-- A scorer that returns zero everywhere. -/
def score0 : Mol → Mol → ℚ × ℚ × ℚ := fun _ _ => (0, 0, 0)

/-- A scorer that returns the fixed positive triple (1, 2, 3). -/
def score1 : Mol → Mol → ℚ × ℚ × ℚ := fun _ _ => (1, 2, 3)

/-- A file system with empty SD files. -/
def files0 : String → List Record := fun _ => []

/-- A file system where every SD file holds one good record. -/
def files1 : String → List Record := fun _ => [Record.good molA]

/-- A file system where every SD file holds a failing record before a good
one. -/
def files9 : String → List Record := fun _ => [Record.bad, Record.good molA]

theorem claim1_witness :
    (["c"] : List String).Nodup ∧
    process score1 files1 [Record.good molA] ["c"] "max" =
      Except.ok ([annotateMax molA 1 2 3 "c" 1], []) ∧
    annotateMax molA 1 2 3 "c" 1 ∈ [annotateMax molA 1 2 3 "c" 1] ∧
    (∃ m t, Record.good m ∈ [Record.good molA] ∧ m.featOk = true ∧
      t ∈ hitTriples (List.map (fun g => (g, clusterMols (files1 g))) ["c"]) ∧
      (annotateMax molA 1 2 3 "c" 1).props "Max_SuCOS_Score" =
        some (PropVal.dbl (score1 t.2.2 m).1) ∧
      (annotateMax molA 1 2 3 "c" 1).props "Max_SuCOS_FeatureMap_Score" =
        some (PropVal.dbl (score1 t.2.2 m).2.1) ∧
      (annotateMax molA 1 2 3 "c" 1).props "Max_SuCOS_Protrude_Score" =
        some (PropVal.dbl (score1 t.2.2 m).2.2) ∧
      (annotateMax molA 1 2 3 "c" 1).props "Max_SuCOS_Cluster" =
        some (PropVal.str (baseName t.1)) ∧
      (annotateMax molA 1 2 3 "c" 1).props "Max_SuCOS_Index" =
        some (PropVal.int (t.2.1 : ℤ)) ∧
      ∀ u ∈ hitTriples (List.map (fun g => (g, clusterMols (files1 g))) ["c"]),
        (score1 u.2.2 m).1 ≤ (score1 t.2.2 m).1) :=
  ⟨List.nodup_singleton "c", rfl, List.mem_singleton_self _,
    claim1_max_annotations score1 files1 [Record.good molA] ["c"]
      [annotateMax molA 1 2 3 "c" 1] [] (annotateMax molA 1 2 3 "c" 1)
      (List.nodup_singleton "c") rfl (List.mem_singleton_self _)⟩

theorem claim2_witness :
    (["c"] : List String).Nodup ∧
    process score1 files1 [Record.good molA] ["c"] "cum" =
      Except.ok ([annotateCum molA 1 2 3], []) ∧
    annotateCum molA 1 2 3 ∈ [annotateCum molA 1 2 3] ∧
    (∃ m, Record.good m ∈ [Record.good molA] ∧ m.featOk = true ∧
      (annotateCum molA 1 2 3).props "Cum_SuCOS_Score" = some (PropVal.dbl
        (((hitTriples (List.map (fun g => (g, clusterMols (files1 g))) ["c"])).map
          fun t => (score1 t.2.2 m).1).sum)) ∧
      (annotateCum molA 1 2 3).props "Cum_SuCOS_FeatureMap_Score" =
        some (PropVal.dbl
        (((hitTriples (List.map (fun g => (g, clusterMols (files1 g))) ["c"])).map
          fun t => (score1 t.2.2 m).2.1).sum)) ∧
      (annotateCum molA 1 2 3).props "Cum_SuCOS_Protrude_Score" =
        some (PropVal.dbl
        (((hitTriples (List.map (fun g => (g, clusterMols (files1 g))) ["c"])).map
          fun t => (score1 t.2.2 m).2.2).sum))) :=
  by
  have hrc : runClusters "cum" score1 molA [("c", [molA])]
      (startAcc (none, none)) = Except.ok ⟨1, 2, 3, none, none⟩ := by
    rw [runClusters_cum score1 molA [("c", [molA])] (startAcc (none, none))]
    norm_num [startAcc, hitTriples, clusterTriples, score1]
  have hpo : processOne "cum" score1 [("c", [molA])] (0 + 1) (none, none)
      (Record.good molA) =
      Except.ok (some (annotateCum molA 1 2 3), [], none, none) :=
    processOne_writeCum "cum" score1 [("c", [molA])] (0 + 1) (none, none)
      molA ⟨1, 2, 3, none, none⟩ rfl hrc (by norm_num) (by decide)
  have hpm : processMols "cum" score1 [("c", [molA])] (none, none) 0
      [Record.good molA] =
      Except.ok ([annotateCum molA 1 2 3], [], none, none) := by
    rw [processMols, hpo]
    rfl
  have hbc : buildClusters files1 ["c"] = ([("c", [molA])], []) := rfl
  have hproc : process score1 files1 [Record.good molA] ["c"] "cum" =
      Except.ok ([annotateCum molA 1 2 3], []) := by
    simp only [process, hbc, hpm, List.nil_append]
  exact ⟨List.nodup_singleton "c", hproc, List.mem_singleton_self _,
    claim2_cum_annotations score1 files1 [Record.good molA] ["c"]
      [annotateCum molA 1 2 3] [] (annotateCum molA 1 2 3)
      (List.nodup_singleton "c") hproc (List.mem_singleton_self _)⟩

theorem claim3_witness :
    molA.featOk = true ∧
    process score0 files0 ([] ++ Record.good molA :: []) [] "max" =
      Except.ok ([], [LogMsg.didNotOverlay 1]) ∧
    (∃ o1 l1 st1 acc o2 l2 st2,
      processMols "max" score0 (buildClusters files0 []).1 (none, none) 0 [] =
        Except.ok (o1, l1, st1) ∧
      runClusters "max" score0 molA (buildClusters files0 []).1
        (startAcc st1) = Except.ok acc ∧
      processMols "max" score0 (buildClusters files0 []).1
        (acc.cname, acc.cindex) (List.length ([] : List Record) + 1) [] =
        Except.ok (o2, l2, st2) ∧
      ((∀ t ∈ hitTriples (buildClusters files0 []).1,
          (score0 t.2.2 molA).1 = 0) →
        acc.s0 = 0 ∧ ([] : List Mol) = o1 ++ o2 ∧
        LogMsg.didNotOverlay (List.length ([] : List Record) + 1) ∈
          [LogMsg.didNotOverlay 1]) ∧
      (0 < acc.s0 → ∃ wr, ([] : List Mol) = o1 ++ wr :: o2)) :=
  ⟨rfl, rfl,
    claim3_zero_score_omitted score0 files0 [] "max" [] [] molA []
      [LogMsg.didNotOverlay 1] (Or.inl rfl) rfl rfl⟩

theorem claim4_witness :
    (¬ ("foo" : String) = "max") ∧ (¬ ("foo" : String) = "cum") ∧
    ((∀ score files input names,
        mainRun score files input names "foo" = Except.error Err.argparseExit) ∧
     (∀ score files input names (m : Mol),
        Record.good m ∈ input → m.featOk = true →
        hitTriples (buildClusters files names).1 ≠ [] →
        process score files input names "foo" =
          Except.error (Err.valueError ("Invalid mode: " ++ "foo")))) :=
  ⟨by decide, by decide, claim4_invalid_mode "foo" (by decide) (by decide)⟩

theorem claim5_witness :
    processMols "max" score0 [] (none, none) 0 ([] ++ Record.bad :: []) =
      Except.ok ([], [LogMsg.warnBadMolInput 1], (none, none)) ∧
    (loadClusterAux "c" 0 ([] ++ Record.bad :: []) =
      ((loadClusterAux "c" 0 []).1 ++
         (loadClusterAux "c" (0 + List.length ([] : List Record) + 1) []).1,
       (loadClusterAux "c" 0 []).2 ++
         LogMsg.warnBadMolCluster
           (0 + List.length ([] : List Record) + 1) "c" ::
           (loadClusterAux "c" (0 + List.length ([] : List Record) + 1) []).2) ∧
     ∃ o1 l1 st1 o2 l2,
       processMols "max" score0 [] (none, none) 0 [] =
         Except.ok (o1, l1, st1) ∧
       processMols "max" score0 [] st1
         (0 + List.length ([] : List Record) + 1) [] =
         Except.ok (o2, l2, (none, none)) ∧
       ([] : List Mol) = o1 ++ o2 ∧
       [LogMsg.warnBadMolInput 1] = l1 ++
         LogMsg.warnBadMolInput (0 + List.length ([] : List Record) + 1) ::
           l2) :=
  ⟨rfl,
    claim5_bad_record_skipped "c" 0 "max" score0 [] (none, none) 0 [] []
      [] [LogMsg.warnBadMolInput 1] (none, none) rfl⟩

theorem claim6_witness :
    molB.featOk = false ∧
    processMols "max" score0 [] (none, none) 0 ([] ++ Record.good molB :: []) =
      Except.ok ([], [LogMsg.warnFeaturesInput 1], (none, none)) ∧
    (loadClusterAux "c" 0 ([] ++ Record.good molB :: []) =
      ((loadClusterAux "c" 0 []).1 ++
         (loadClusterAux "c" (0 + List.length ([] : List Record) + 1) []).1,
       (loadClusterAux "c" 0 []).2 ++
         LogMsg.warnFeaturesCluster
           (0 + List.length ([] : List Record) + 1) "c" ::
           (loadClusterAux "c" (0 + List.length ([] : List Record) + 1) []).2) ∧
     ∃ o1 l1 st1 o2 l2,
       processMols "max" score0 [] (none, none) 0 [] =
         Except.ok (o1, l1, st1) ∧
       processMols "max" score0 [] st1
         (0 + List.length ([] : List Record) + 1) [] =
         Except.ok (o2, l2, (none, none)) ∧
       ([] : List Mol) = o1 ++ o2 ∧
       [LogMsg.warnFeaturesInput 1] = l1 ++
         LogMsg.warnFeaturesInput (0 + List.length ([] : List Record) + 1) ::
           l2) :=
  ⟨rfl, rfl,
    claim6_feature_failure_skipped "c" 0 "max" score0 [] (none, none) 0 [] []
      molB [] [LogMsg.warnFeaturesInput 1] (none, none) rfl rfl⟩

theorem claim7_witness :
    process score1 files1 [Record.good molA] ["c"] "max" =
      Except.ok ([annotateMax molA 1 2 3 "c" 1], []) ∧
    (∃ m, Record.good m ∈ [Record.good molA] ∧ m.featOk = true ∧
      (∀ k, ¬ k ∈ annotKeys "max" →
        (annotateMax molA 1 2 3 "c" 1).props k = m.props k) ∧
      (∀ k ∈ annotKeys "max",
        ((annotateMax molA 1 2 3 "c" 1).props k).isSome = true)) :=
  ⟨rfl,
    claim7_only_annotations score1 files1 [Record.good molA] ["c"] "max"
      [annotateMax molA 1 2 3 "c" 1] [] (annotateMax molA 1 2 3 "c" 1)
      (Or.inl rfl) rfl (List.mem_singleton_self _)⟩

theorem claim8_witness :
    runClusters "max" score1 molA [("c", [molA])] (startAcc (none, none)) =
      Except.ok ⟨1, 2, 3, some "c", some 1⟩ ∧
    (0 : ℚ) < (⟨1, 2, 3, some "c", some 1⟩ : ScoreAcc).s0 ∧
    ((⟨1, 2, 3, some "c", some 1⟩ : ScoreAcc).cname.isSome = true ∧
     (⟨1, 2, 3, some "c", some 1⟩ : ScoreAcc).cindex.isSome = true ∧
     ∀ files input names, ∃ p,
       process score1 files input names "max" = Except.ok p) :=
  ⟨rfl, by norm_num,
    claim8_assigned score1 molA [("c", [molA])] (none, none)
      ⟨1, 2, 3, some "c", some 1⟩ rfl (by norm_num)⟩

theorem claim9_witness :
    (["c"] : List String).Nodup ∧
    process score1 files9 [Record.good molA] ["c"] "max" =
      Except.ok ([annotateMax molA 1 2 3 "c" 1],
        [LogMsg.warnBadMolCluster 1 "c"]) ∧
    ((∃ (m : Mol) (g : String) (hit : Mol) (ci : ℕ),
      Record.good m ∈ [Record.good molA] ∧ g ∈ (["c"] : List String) ∧
      (annotateMax molA 1 2 3 "c" 1).props "Max_SuCOS_Cluster" =
        some (PropVal.str (baseName g)) ∧
      (annotateMax molA 1 2 3 "c" 1).props "Max_SuCOS_Index" =
        some (PropVal.int (ci : ℤ)) ∧
      1 ≤ ci ∧ (clusterMols (files9 g)).get? (ci - 1) = some hit ∧
      (annotateMax molA 1 2 3 "c" 1).props "Max_SuCOS_Score" =
        some (PropVal.dbl (score1 hit m).1)) ∧
    (∀ (recs : List Record) (i : ℕ) (hit : Mol),
      (clusterMols recs).get? i = some hit →
      ∃ j, recs.get? j = some (Record.good hit) ∧
        j = i + ((recs.take j).countP fun r => (keptRec r).isNone) ∧
        (0 < ((recs.take j).countP fun r => (keptRec r).isNone) → i < j))) :=
  ⟨List.nodup_singleton "c", rfl,
    claim9_index_semantics score1 files9 [Record.good molA] ["c"]
      [annotateMax molA 1 2 3 "c" 1] [LogMsg.warnBadMolCluster 1 "c"]
      (annotateMax molA 1 2 3 "c" 1) (List.nodup_singleton "c") rfl
      (List.mem_singleton_self _)⟩

theorem claim10_witness :
    process score0 files0 [] [] "max" = Except.ok ([], []) ∧
    (∃ sel, List.Sublist sel (inputMols []) ∧
      List.Forall₂ annotatedFrom sel []) :=
  ⟨rfl, claim10_subsequence score0 files0 [] [] "max" [] [] rfl⟩
